import Mathlib

/-!
Verification of the analytics core of the `serpius-project/analytics`
dashboard repository (Wedefin index dashboards).

Each definition below is a shallow embedding of a concrete piece of the
Python source, named after the symbol it embeds:

* `dailyReduce`       — pages/1 lines 65-72 (collapse to one row per chain
  per day, keeping the last observation of the day).
* `computeChainMetrics` — pages/1 `compute_chain_metrics` (lines 225-267).
* `preset_to_range` / `resolvedWindow` — pages/1 lines 82-96 and pages/2
  lines 112-122 plus the two clamping lines that follow each.
* `nearest_price`     — pages/2 lines 160-172 (merge_asof, direction
  "nearest", inclusive tolerance).
* `alloc` pipeline, `group_top_n`, `turnover_series` — pages/2 lines
  194-236.
* `erc20_decimals`, `erc20_balance_of` — pages/4 lines 73-89.

Real numbers produced by the Python code are modelled as exact rationals
(`ℚ`); `NaN` ("undefined metric") is modelled as `Option.none`.  The two
metrics whose Python value involves a square root (`ann_vol`, `sharpe`)
are carried by their squares (`ann_vol_pct_sq`, `sharpe_sq`), which are
rational; a square is `0`/`none` exactly when the code's value is
`0`/`NaN`, which is all the spec claims ever ask of these two fields.
-/

namespace Analytics

/-- A raw price observation as fetched per chain (pages/1 `df_all`):
chain identifier, millisecond timestamp, value.  Chains are identified by
a numeric id ordered like the chain-name strings the code sorts by. -/
structure Obs where
  chain : Nat
  ts : Nat
  value : ℚ
  deriving Repr, DecidableEq

/-- Milliseconds per UTC calendar day. -/
def msPerDay : Nat := 86400000

/-- The `df_all["datetime"].dt.date`: the UTC calendar date of an observation,
as a day number (timestamps are ms since the epoch). -/
def obsDay (o : Obs) : Nat := o.ts / msPerDay

/-- The (chain, date) group key of an observation. -/
def obsKey (o : Obs) : Nat × Nat := (o.chain, obsDay o)

/-- Strict lexicographic order on (chain, date) keys, the order
`sort_values(["chain", "date"])` produces. -/
def keyLt (a b : Nat × Nat) : Bool :=
  a.1 < b.1 || (a.1 = b.1 && a.2 < b.2)

/-- Insert a key into a strictly sorted duplicate-free key list,
keeping it strictly sorted and duplicate-free. -/
def insertKey (k : Nat × Nat) : List (Nat × Nat) → List (Nat × Nat)
  | [] => [k]
  | x :: xs =>
    if keyLt k x then k :: x :: xs
    else if k = x then x :: xs
    else x :: insertKey k xs

/-- The sorted, duplicate-free list of (chain, date) group keys of an
observation list — the index of `groupby(["chain", "date"])` after the
final `sort_values(["chain", "date"])`. -/
def sortedKeys (rows : List Obs) : List (Nat × Nat) :=
  rows.foldl (fun acc o => insertKey (obsKey o) acc) []

/-- The `groupby(...)["datetime"].idxmax()` on one group: the first
observation attaining the maximal timestamp. -/
def pickMaxTs : List Obs → Option Obs
  | [] => none
  | o :: rest =>
    match pickMaxTs rest with
    | none => some o
    | some b => if b.ts > o.ts then some b else some o

/-- One output row of the daily reduction: (chain, date, value). -/
structure DailyRow where
  chain : Nat
  date : Nat
  value : ℚ
  deriving Repr, DecidableEq

/-- pages/1 lines 65-72: collapse to one row per (chain, day) keeping the
last (max-timestamp) observation of the day, output sorted ascending by
(chain, date). -/
def dailyReduce (rows : List Obs) : List DailyRow :=
  (sortedKeys rows).filterMap fun k =>
    (pickMaxTs (rows.filter fun o => obsKey o = k)).map fun o =>
      { chain := k.1, date := k.2, value := o.value }

/-! ### Daily-reduction lemmas -/

/-- Membership in `insertKey`. -/
theorem mem_insertKey (k : Nat × Nat) (l : List (Nat × Nat)) (x : Nat × Nat) :
    x ∈ insertKey k l ↔ x = k ∨ x ∈ l := by
  induction l with
  | nil => simp [insertKey]
  | cons a as ih =>
    simp only [insertKey]
    split
    · simp only [List.mem_cons]
    · split
      · rename_i h1 h2
        subst h2
        simp only [List.mem_cons]
        tauto
      · simp only [List.mem_cons, ih]
        tauto

/-- The `keyLt` is a strict linear order: trichotomy. -/
theorem keyLt_trichotomy (a b : Nat × Nat) :
    keyLt a b = true ∨ a = b ∨ keyLt b a = true := by
  rcases a with ⟨a1, a2⟩
  rcases b with ⟨b1, b2⟩
  simp only [keyLt, Bool.or_eq_true, decide_eq_true_eq, Bool.and_eq_true,
    Prod.mk.injEq]
  omega

theorem keyLt_irrefl (a : Nat × Nat) : keyLt a a = false := by
  rcases a with ⟨a1, a2⟩
  simp [keyLt]

theorem keyLt_trans {a b c : Nat × Nat} (h1 : keyLt a b = true)
    (h2 : keyLt b c = true) : keyLt a c = true := by
  rcases a with ⟨a1, a2⟩
  rcases b with ⟨b1, b2⟩
  rcases c with ⟨c1, c2⟩
  simp only [keyLt, Bool.or_eq_true, decide_eq_true_eq, Bool.and_eq_true] at *
  omega

theorem keyLt_asymm {a b : Nat × Nat} (h : keyLt a b = true) :
    ¬ keyLt b a = true := by
  rcases a with ⟨a1, a2⟩
  rcases b with ⟨b1, b2⟩
  simp only [keyLt, Bool.or_eq_true, decide_eq_true_eq, Bool.and_eq_true] at *
  omega

/-- The `insertKey` preserves strict sortedness (`Pairwise keyLt`). -/
theorem insertKey_sorted (k : Nat × Nat) (l : List (Nat × Nat))
    (hl : l.Pairwise (fun a b => keyLt a b = true)) :
    (insertKey k l).Pairwise (fun a b => keyLt a b = true) := by
  induction l with
  | nil => simp [insertKey]
  | cons a as ih =>
    rcases List.pairwise_cons.mp hl with ⟨ha, has⟩
    simp only [insertKey]
    split
    · rename_i h1
      refine List.pairwise_cons.mpr ⟨?_, hl⟩
      intro x hx
      rcases List.mem_cons.mp hx with rfl | h
      · exact h1
      · exact keyLt_trans h1 (ha x h)
    · split
      · exact hl
      · rename_i h1 h2
        refine List.pairwise_cons.mpr ⟨?_, ih has⟩
        intro x hx
        rcases (mem_insertKey k as x).mp hx with rfl | h
        · rcases keyLt_trichotomy a x with h | h | h
          · exact h
          · exact absurd h.symm h2
          · exact absurd h h1
        · exact ha x h

/-- The key list of any observation list is strictly sorted. -/
theorem sortedKeys_sorted (rows : List Obs) :
    (sortedKeys rows).Pairwise (fun a b => keyLt a b = true) := by
  have h : ∀ acc, acc.Pairwise (fun a b => keyLt a b = true) →
      (rows.foldl (fun acc o => insertKey (obsKey o) acc) acc).Pairwise
        (fun a b => keyLt a b = true) := by
    induction rows with
    | nil => intro acc hacc; simpa using hacc
    | cons o os ih =>
      intro acc hacc
      exact ih _ (insertKey_sorted _ _ hacc)
  exact h [] (by simp)

/-- The sorted key list holds exactly the keys of the input rows. -/
theorem mem_sortedKeys (rows : List Obs) (k : Nat × Nat) :
    k ∈ sortedKeys rows ↔ ∃ o ∈ rows, obsKey o = k := by
  have h : ∀ acc, (k ∈ rows.foldl (fun acc o => insertKey (obsKey o) acc) acc ↔
      k ∈ acc ∨ ∃ o ∈ rows, obsKey o = k) := by
    induction rows with
    | nil => intro acc; simp
    | cons o os ih =>
      intro acc
      simp only [List.foldl_cons, ih, mem_insertKey]
      constructor
      · rintro ((h | h) | h)
        · exact Or.inr ⟨o, by simp, h.symm⟩
        · exact Or.inl h
        · rcases h with ⟨o', ho', hk⟩
          exact Or.inr ⟨o', by simp [ho'], hk⟩
      · rintro (h | ⟨o', ho', hk⟩)
        · exact Or.inl (Or.inr h)
        · rcases List.mem_cons.mp ho' with rfl | h
          · exact Or.inl (Or.inl hk.symm)
          · exact Or.inr ⟨o', h, hk⟩
  have := h []
  simpa [sortedKeys] using this

/-- The `pickMaxTs` returns `none` exactly on the empty list. -/
theorem pickMaxTs_eq_none (l : List Obs) : pickMaxTs l = none ↔ l = [] := by
  cases l with
  | nil => simp [pickMaxTs]
  | cons a as =>
    simp only [pickMaxTs]
    cases pickMaxTs as with
    | none => simp
    | some b => by_cases h : b.ts > a.ts <;> simp [h]

/-- The `pickMaxTs` returns an element of the list attaining the maximal
timestamp (the first such element). -/
theorem pickMaxTs_spec (l : List Obs) :
    ∀ o, pickMaxTs l = some o → o ∈ l ∧ ∀ o' ∈ l, o'.ts ≤ o.ts := by
  induction l with
  | nil => intro o h; simp [pickMaxTs] at h
  | cons a as ih =>
    intro o h
    simp only [pickMaxTs] at h
    cases hrec : pickMaxTs as with
    | none =>
      rw [hrec] at h
      cases h
      have has : as = [] := (pickMaxTs_eq_none as).mp hrec
      subst has
      exact ⟨by simp, by simp⟩
    | some b =>
      rw [hrec] at h
      dsimp only at h
      rcases ih b hrec with ⟨hb_mem, hb_max⟩
      by_cases hcmp : b.ts > a.ts
      · rw [if_pos hcmp] at h
        cases h
        refine ⟨List.mem_cons_of_mem _ hb_mem, ?_⟩
        intro o' ho'
        rcases List.mem_cons.mp ho' with rfl | hmem
        · omega
        · exact hb_max o' hmem
      · rw [if_neg hcmp] at h
        cases h
        refine ⟨List.mem_cons_self _ _, ?_⟩
        intro o' ho'
        rcases List.mem_cons.mp ho' with rfl | hmem
        · exact le_refl _
        · have := hb_max o' hmem
          omega

/-- The `pickMaxTs` succeeds on any non-empty list. -/
theorem pickMaxTs_isSome (l : List Obs) (h : l ≠ []) :
    (pickMaxTs l).isSome := by
  cases heq : pickMaxTs l with
  | none => exact absurd ((pickMaxTs_eq_none l).mp heq) h
  | some b => rfl

/-- The group-picking step of `dailyReduce`. -/
def reduceKey (rows : List Obs) (k : Nat × Nat) : Option DailyRow :=
  (pickMaxTs (rows.filter fun o => obsKey o = k)).map fun o =>
    { chain := k.1, date := k.2, value := o.value }

theorem dailyReduce_eq (rows : List Obs) :
    dailyReduce rows = (sortedKeys rows).filterMap (reduceKey rows) := rfl

/-- The `reduceKey` succeeds on every key actually present in the rows, and
the produced row carries that key. -/
theorem reduceKey_spec (rows : List Obs) (k : Nat × Nat)
    (hk : ∃ o ∈ rows, obsKey o = k) :
    ∃ r, reduceKey rows k = some r ∧ r.chain = k.1 ∧ r.date = k.2 := by
  rcases hk with ⟨o, ho, hko⟩
  have hmem : o ∈ rows.filter fun o => obsKey o = k :=
    List.mem_filter.mpr ⟨ho, by simp [hko]⟩
  have hne : rows.filter (fun o => obsKey o = k) ≠ [] := by
    intro hemp
    rw [hemp] at hmem
    simp at hmem
  cases hpick : pickMaxTs (rows.filter fun o => obsKey o = k) with
  | none => exact absurd ((pickMaxTs_eq_none _).mp hpick) hne
  | some b =>
    refine ⟨{ chain := k.1, date := k.2, value := b.value }, ?_, rfl, rfl⟩
    simp [reduceKey, hpick]

/-- The keys of the daily reduction are exactly `sortedKeys rows`. -/
theorem dailyReduce_keys (rows : List Obs) :
    (dailyReduce rows).map (fun r => (r.chain, r.date)) = sortedKeys rows := by
  rw [dailyReduce_eq]
  have h : ∀ l : List (Nat × Nat), (∀ k ∈ l, ∃ o ∈ rows, obsKey o = k) →
      (l.filterMap (reduceKey rows)).map (fun r => (r.chain, r.date)) = l := by
    intro l
    induction l with
    | nil => intro _; simp
    | cons k ks ih =>
      intro hl
      rcases reduceKey_spec rows k (hl k (by simp)) with ⟨r, hr, hrc, hrd⟩
      simp only [List.filterMap_cons, hr, List.map_cons, hrc, hrd]
      rw [ih (fun k' hk' => hl k' (by simp [hk']))]
  exact h _ (fun k hk => (mem_sortedKeys rows k).mp hk)

/-- Every daily-reduction row originates from an input observation of the
same chain and date attaining the maximal timestamp of its group. -/
theorem dailyReduce_row_spec (rows : List Obs) (r : DailyRow)
    (hr : r ∈ dailyReduce rows) :
    ∃ o ∈ rows, o.chain = r.chain ∧ obsDay o = r.date ∧ o.value = r.value ∧
      ∀ o' ∈ rows, o'.chain = r.chain → obsDay o' = r.date → o'.ts ≤ o.ts := by
  rw [dailyReduce_eq] at hr
  rcases List.mem_filterMap.mp hr with ⟨k, _, hred⟩
  simp only [reduceKey] at hred
  cases hpick : pickMaxTs (rows.filter fun o => obsKey o = k) with
  | none => rw [hpick] at hred; simp at hred
  | some b =>
    rw [hpick] at hred
    simp only [Option.map_some'] at hred
    injection hred with hred
    subst hred
    rcases pickMaxTs_spec _ b hpick with ⟨hb_mem, hb_max⟩
    rcases List.mem_filter.mp hb_mem with ⟨hb_rows, hb_key⟩
    have hb_key' : obsKey b = k := by simpa using hb_key
    refine ⟨b, hb_rows, congrArg Prod.fst hb_key', congrArg Prod.snd hb_key',
      rfl, ?_⟩
    intro o' ho' hc hd
    refine hb_max o' (List.mem_filter.mpr ⟨ho', ?_⟩)
    have hk : obsKey o' = k := by
      have : k = (k.1, k.2) := rfl
      rw [this, obsKey, hc, hd]
    simp [hk]

/-- Every input observation's (chain, date) key is represented in the
daily reduction. -/
theorem dailyReduce_complete (rows : List Obs) (o : Obs) (ho : o ∈ rows) :
    ∃ r ∈ dailyReduce rows, r.chain = o.chain ∧ r.date = obsDay o := by
  have hk : obsKey o ∈ sortedKeys rows := (mem_sortedKeys rows _).mpr ⟨o, ho, rfl⟩
  rcases reduceKey_spec rows (obsKey o) ⟨o, ho, rfl⟩ with ⟨r, hr, hrc, hrd⟩
  refine ⟨r, ?_, hrc, hrd⟩
  rw [dailyReduce_eq]
  exact List.mem_filterMap.mpr ⟨obsKey o, hk, hr⟩

/-- The daily reduction output, viewed through its (chain, date) keys, is
strictly sorted lexicographically. -/
theorem dailyReduce_sorted (rows : List Obs) :
    ((dailyReduce rows).map fun r => (r.chain, r.date)).Pairwise
      (fun a b => keyLt a b = true) := by
  rw [dailyReduce_keys]
  exact sortedKeys_sorted rows

/-- Claim C2. Daily reduction: for every input series of (timestamp, value,
chain) observations, the output has at most one row per (chain, calendar
date) — its (chain, date) keys are strictly sorted lexicographically, so
rows are ordered ascending by date within each chain and no key repeats —
every key present in the input appears, each output row's value is that of
an observation of the same chain and date attaining the maximum timestamp
among that chain's same-day observations, and an empty input yields an
empty output. -/
theorem claim_C2_daily_reduction :
    dailyReduce [] = [] ∧
    ∀ rows : List Obs,
      (((dailyReduce rows).map fun r => (r.chain, r.date)).Pairwise
        fun a b => keyLt a b = true) ∧
      (∀ r ∈ dailyReduce rows, ∃ o ∈ rows,
        o.chain = r.chain ∧ obsDay o = r.date ∧ o.value = r.value ∧
        ∀ o' ∈ rows, o'.chain = r.chain → obsDay o' = r.date → o'.ts ≤ o.ts) ∧
      (∀ o ∈ rows, ∃ r ∈ dailyReduce rows, r.chain = o.chain ∧ r.date = obsDay o) :=
  ⟨rfl, fun rows => ⟨dailyReduce_sorted rows,
    fun r hr => dailyReduce_row_spec rows r hr,
    fun o ho => dailyReduce_complete rows o ho⟩⟩

/-- Witness for C2 at a concrete input: chain 0 with two observations on
day 0 (timestamps 50 and 100) and one on day 1; the day-0 row keeps the
value of the timestamp-100 observation. -/
theorem claim_C2_daily_reduction_witness :
    ∃ o ∈ ([⟨0, 100, 5⟩, ⟨0, 50, 7⟩, ⟨0, 86400010, 9⟩] : List Obs),
      o.chain = 0 ∧ obsDay o = 0 ∧ o.value = 5 ∧
      ∀ o' ∈ ([⟨0, 100, 5⟩, ⟨0, 50, 7⟩, ⟨0, 86400010, 9⟩] : List Obs),
        o'.chain = 0 → obsDay o' = 0 → o'.ts ≤ o.ts := by
  have h := (claim_C2_daily_reduction.2
      ([⟨0, 100, 5⟩, ⟨0, 50, 7⟩, ⟨0, 86400010, 9⟩] : List Obs)).2.1
      ⟨0, 0, 5⟩ (by decide)
  simpa using h

/-! ### Risk & performance metrics (pages/1 `compute_chain_metrics`)

Reals are modelled as exact rationals; a pandas `NaN` result is
`Option.none`.  `s.pct_change().dropna()` is `returns`,
`s.cummax()`-based drawdowns are `drawdowns`, `Series.quantile`
(linear-interpolation method) is `quantile`, sample standard deviation
`r.std()` (ddof = 1) is carried by its square `sampleVar`. -/

/-- The `s.pct_change().dropna()`: simple returns `v_i / v_{i-1} - 1`. -/
def returns : List ℚ → List ℚ
  | a :: b :: rest => (b / a - 1) :: returns (b :: rest)
  | _ => []

/-- Mean of a list (`Series.mean`). -/
def mean (l : List ℚ) : ℚ := l.sum / l.length

/-- Sample variance with ddof = 1 — the square of pandas `Series.std`. -/
def sampleVar (l : List ℚ) : ℚ :=
  ((l.map fun x => (x - mean l) ^ 2).sum) / ((l.length : ℚ) - 1)

/-- Helper for `drawdowns`: running maximum `m` so far. -/
def drawdownsAux (m : ℚ) : List ℚ → List ℚ
  | [] => []
  | v :: rest => (v / max m v - 1) :: drawdownsAux (max m v) rest

/-- The `s / s.cummax() - 1.0`: drawdown at each point. -/
def drawdowns : List ℚ → List ℚ
  | [] => []
  | v :: rest => drawdownsAux v (v :: rest)

/-- The `Series.min` — `none` on an empty series. -/
def listMin : List ℚ → Option ℚ
  | [] => none
  | x :: xs =>
    match listMin xs with
    | none => some x
    | some m => some (min x m)

/-- Ascending insertion into a sorted list. -/
def insertAsc (x : ℚ) : List ℚ → List ℚ
  | [] => [x]
  | y :: ys => if x ≤ y then x :: y :: ys else y :: insertAsc x ys

/-- Ascending insertion sort (what `Series.quantile` sorts by). -/
def sortAsc (l : List ℚ) : List ℚ := l.foldr insertAsc []

/-- The `Series.quantile(alpha)` with the default linear interpolation:
`h = alpha * (n - 1)`, result `x[⌊h⌋] + (h - ⌊h⌋) * (x[⌊h⌋+1] - x[⌊h⌋])`
on the sorted values.  Callers guard against empty input. -/
def quantile (l : List ℚ) (alpha : ℚ) : ℚ :=
  let s := sortAsc l
  let h : ℚ := alpha * ((l.length : ℚ) - 1)
  let i : ℕ := h.floor.toNat
  let lo := s.getD i 0
  let hi := s.getD (i + 1) lo
  lo + (h - (i : ℚ)) * (hi - lo)

/-- The per-chain metrics row (pages/1 lines 225-267).  `ann_vol_pct_sq`
is the square of the code's `ann_vol_pct` (`r.std() * sqrt(365) * 100`),
and `sharpe_sq` the square of its `sharpe`; both squares are rational
while the originals are not, and a square is `some 0` / `none` exactly
when the original is `0` / `NaN`. -/
structure ChainMetrics where
  obs : Nat
  cum_return_pct : Option ℚ
  max_drawdown_pct : Option ℚ
  var_pct : Option ℚ
  es_pct : Option ℚ
  ann_vol_pct_sq : Option ℚ
  sharpe_sq : Option ℚ
  deriving Repr, DecidableEq

/-- The `s.iloc[-1] / s.iloc[0] - 1.0` (cumulative return). -/
def cumReturn (s : List ℚ) : ℚ := s.getLast?.getD 0 / s.headI - 1

/-- The `(s / s.cummax() - 1.0).min()` (max drawdown). -/
def maxDrawdown (s : List ℚ) : Option ℚ := listMin (drawdowns s)

/-- The `r.quantile(alpha)` guarded by `len(r) > 0`. -/
def varQ (alpha : ℚ) (r : List ℚ) : Option ℚ :=
  if 0 < r.length then some (quantile r alpha) else none

/-- The `tail = r[r <= var]; es = tail.mean() if not tail.empty else nan`. -/
def esQ (alpha : ℚ) (r : List ℚ) : Option ℚ :=
  match varQ alpha r with
  | none => none
  | some v =>
    let tail := r.filter fun x => x ≤ v
    if tail.isEmpty then none else some (mean tail)

/-- Square of `(r.std() * 365 ** 0.5) * 100 if len(r) > 1 else nan`
(the code's `ann_vol_pct`). -/
def annVolSq (r : List ℚ) : Option ℚ :=
  if 1 < r.length then some (sampleVar r * 365 * 10000) else none

/-- Square of the annualized Sharpe ratio: defined exactly when
`len(r) > 1 and r.std() > 0` (the code's guard; `std > 0 ↔ var > 0`). -/
def sharpeSq (rfDaily : ℚ) (r : List ℚ) : Option ℚ :=
  if 1 < r.length ∧ 0 < sampleVar r then
    some ((mean r - rfDaily) ^ 2 / sampleVar r * 365)
  else none

/-- pages/1 `compute_chain_metrics`, for one chain's value series in
window order.  `alpha` is `(100 - confidence) / 100`; `rfDaily` is the
daily risk-free rate the code derives from the annual one (its exact
value is irrational, so it is a parameter here; no claim depends on it). -/
def computeChainMetrics (alpha rfDaily : ℚ) (s : List ℚ) : ChainMetrics :=
  if s.length < 2 then
    { obs := s.length, cum_return_pct := none, max_drawdown_pct := none,
      var_pct := none, es_pct := none, ann_vol_pct_sq := none,
      sharpe_sq := none }
  else
    { obs := s.length,
      cum_return_pct := some (cumReturn s * 100),
      max_drawdown_pct := (maxDrawdown s).map (· * 100),
      var_pct := (varQ alpha (returns s)).map (· * 100),
      es_pct := (esQ alpha (returns s)).map (· * 100),
      ann_vol_pct_sq := annVolSq (returns s),
      sharpe_sq := sharpeSq rfDaily (returns s) }

/-- pages/1 `fmt_pct`: `NaN` renders as the em-dash placeholder,
a number as a two-decimal percentage.  (Python's banker's rounding on the
exact .005 boundary is modelled as round-half-up; no claim depends on
that boundary.) -/
def fmt_pct (x : Option ℚ) : String :=
  match x with
  | none => "—"
  | some v =>
    let scaled : ℤ := round (v * 100)
    let sign := if scaled < 0 then "-" else ""
    let a := scaled.natAbs
    sign ++ toString (a / 100) ++ "." ++
      (if a % 100 < 10 then "0" else "") ++ toString (a % 100) ++ "%"

/-! ### Constant-series lemmas (for C3) -/

theorem returns_replicate (c : ℚ) (hc : c ≠ 0) :
    ∀ n, returns (List.replicate n c) = List.replicate (n - 1) 0
  | 0 => by simp [returns]
  | 1 => by simp [returns]
  | n + 2 => by
    have ih := returns_replicate c hc (n + 1)
    simp only [Nat.add_sub_cancel] at ih ⊢
    simp only [List.replicate_succ] at ih ⊢
    simp [returns, div_self hc, ih, List.replicate_succ]

theorem drawdownsAux_replicate (c : ℚ) (hc : c ≠ 0) :
    ∀ n, drawdownsAux c (List.replicate n c) = List.replicate n 0
  | 0 => by simp [drawdownsAux]
  | n + 1 => by
    have ih := drawdownsAux_replicate c hc n
    simp [List.replicate_succ, drawdownsAux, div_self hc, ih]

theorem drawdowns_replicate (c : ℚ) (hc : c ≠ 0) (n : ℕ) :
    drawdowns (List.replicate (n + 1) c) = List.replicate (n + 1) 0 := by
  rw [List.replicate_succ, drawdowns, ← List.replicate_succ]
  exact drawdownsAux_replicate c hc (n + 1)

theorem listMin_replicate_zero :
    ∀ n, listMin (List.replicate (n + 1) (0 : ℚ)) = some 0
  | 0 => by simp [listMin]
  | n + 1 => by
    have ih := listMin_replicate_zero n
    rw [List.replicate_succ, listMin, ih]
    simp

theorem sampleVar_replicate_zero (m : ℕ) :
    sampleVar (List.replicate m (0 : ℚ)) = 0 := by
  simp [sampleVar, mean]

theorem getLastD_replicate (c : ℚ) :
    ∀ n, (List.replicate (n + 1) c).getLast?.getD 0 = c
  | 0 => by simp
  | n + 1 => by
    have ih := getLastD_replicate c n
    rw [List.replicate_succ] at ih ⊢
    rw [List.replicate_succ, List.getLast?_cons_cons]
    exact ih

theorem cumReturn_replicate (c : ℚ) (hc : c ≠ 0) (n : ℕ) :
    cumReturn (List.replicate (n + 1) c) = 0 := by
  rw [cumReturn, getLastD_replicate c n]
  rw [List.replicate_succ]
  simp [List.headI, div_self hc]

/-- Claim C3 (counterexample). A chain whose windowed series is the two
equal values `[5, 5]` has 2 (not fewer than 2) points, yet the code's
annualized volatility is `NaN` (here: its square is `none`), not `0`:
`r.std()` needs at least two returns, i.e. at least three points.  This
falsifies "annualized_vol undefined only when the series has fewer than
2 points". -/
theorem claim_C3_counterexample :
    ([(5 : ℚ), 5].length = 2) ∧
    (computeChainMetrics (1 / 200) 0 [(5 : ℚ), 5]).ann_vol_pct_sq = none := by
  refine ⟨rfl, ?_⟩
  norm_num [computeChainMetrics, annVolSq, returns]

/-- Claim C3 (amended). If all of a chain's values in the window are equal
(and nonzero, as index values are) then `cumulative_return_pct = 0`,
`max_drawdown_pct = 0`, the Sharpe ratio is undefined (zero return
variance), and the annualized volatility is `0` when the series has at
least 3 points but undefined when it has exactly 2 (fewer than 2
returns).  Volatility and Sharpe are carried by their rational squares
(`x = 0 ↔ x² = 0`, `x` is `NaN` iff `x²` is `none`). -/
theorem claim_C3_constant_series (alpha rfDaily c : ℚ) (hc : c ≠ 0)
    (n : ℕ) (hn : 2 ≤ n) :
    (computeChainMetrics alpha rfDaily (List.replicate n c)).cum_return_pct
      = some 0 ∧
    (computeChainMetrics alpha rfDaily (List.replicate n c)).max_drawdown_pct
      = some 0 ∧
    (computeChainMetrics alpha rfDaily (List.replicate n c)).sharpe_sq
      = none ∧
    (3 ≤ n →
      (computeChainMetrics alpha rfDaily (List.replicate n c)).ann_vol_pct_sq
        = some 0) ∧
    (n = 2 →
      (computeChainMetrics alpha rfDaily (List.replicate n c)).ann_vol_pct_sq
        = none) := by
  obtain ⟨k, rfl⟩ : ∃ k, n = k + 2 := ⟨n - 2, by omega⟩
  have hguard : ¬ (List.replicate (k + 2) c).length < 2 := by simp
  have hret : returns (List.replicate (k + 2) c) = List.replicate (k + 1) 0 := by
    simpa using returns_replicate c hc (k + 2)
  have hvar : sampleVar (returns (List.replicate (k + 2) c)) = 0 := by
    rw [hret]; exact sampleVar_replicate_zero (k + 1)
  simp only [computeChainMetrics, hguard, if_false]
  refine ⟨?_, ?_, ?_, ?_, ?_⟩
  · rw [show k + 2 = (k + 1) + 1 from rfl, cumReturn_replicate c hc (k + 1)]
    norm_num
  · rw [maxDrawdown, show k + 2 = (k + 1) + 1 from rfl,
      drawdowns_replicate c hc (k + 1), listMin_replicate_zero (k + 1)]
    norm_num
  · simp [sharpeSq, hvar]
  · intro h3
    have hk : 1 ≤ k := by omega
    simp only [annVolSq, hret, List.length_replicate]
    rw [if_pos (by omega), sampleVar_replicate_zero]
    norm_num
  · intro h2
    have hk : k = 0 := by omega
    subst hk
    simp only [annVolSq, hret, List.length_replicate]
    norm_num

/-- Witness for C3 (amended) at `alpha = 1/200`, `rfDaily = 0`, the
constant series `[5, 5, 5]` (and `[5, 5]` for the n = 2 clause). -/
theorem claim_C3_constant_series_witness :
    (computeChainMetrics (1 / 200) 0 (List.replicate 3 (5 : ℚ))).cum_return_pct
      = some 0 ∧
    (computeChainMetrics (1 / 200) 0 (List.replicate 3 (5 : ℚ))).ann_vol_pct_sq
      = some 0 ∧
    (computeChainMetrics (1 / 200) 0 (List.replicate 3 (5 : ℚ))).sharpe_sq
      = none ∧
    (computeChainMetrics (1 / 200) 0 (List.replicate 2 (5 : ℚ))).ann_vol_pct_sq
      = none := by
  have h3 := claim_C3_constant_series (1 / 200) 0 5 (by norm_num) 3 (by norm_num)
  have h2 := claim_C3_constant_series (1 / 200) 0 5 (by norm_num) 2 (by norm_num)
  exact ⟨h3.1, h3.2.2.2.1 (by norm_num), h3.2.2.1, h2.2.2.2.2 rfl⟩

/-- Claim C7. With fewer than 2 points every metric of
`compute_chain_metrics` is the missing sentinel (`NaN`, here `none`) —
not zero and not an error; the Sharpe ratio is the missing sentinel
whenever the return standard deviation is zero (`std = 0 ↔ sampleVar
= 0`); and `fmt_pct` renders the sentinel as the placeholder "—",
distinct from the rendering "0.00%" of a computed zero. -/
theorem claim_C7_missing_sentinels :
    (∀ (alpha rfDaily : ℚ) (s : List ℚ), s.length < 2 →
      computeChainMetrics alpha rfDaily s =
        { obs := s.length, cum_return_pct := none, max_drawdown_pct := none,
          var_pct := none, es_pct := none, ann_vol_pct_sq := none,
          sharpe_sq := none }) ∧
    (∀ (alpha rfDaily : ℚ) (s : List ℚ), sampleVar (returns s) = 0 →
      (computeChainMetrics alpha rfDaily s).sharpe_sq = none) ∧
    fmt_pct none = "—" ∧
    fmt_pct (some 0) = "0.00%" ∧
    fmt_pct none ≠ fmt_pct (some 0) := by
  have hzero : fmt_pct (some 0) = "0.00%" := by
    have hr : round ((0 : ℚ) * 100) = 0 := by norm_num
    simp only [fmt_pct, hr]
    rfl
  refine ⟨?_, ?_, rfl, hzero, ?_⟩
  · intro alpha rfDaily s h
    simp [computeChainMetrics, h]
  · intro alpha rfDaily s h
    by_cases h2 : s.length < 2
    · simp [computeChainMetrics, h2]
    · simp [computeChainMetrics, h2, sharpeSq, h]
  · rw [hzero]
    decide

/-- Witness for C7: the one-point series `[7]` yields the all-missing
row, and the zero-variance series `[5, 5]` yields a missing Sharpe. -/
theorem claim_C7_missing_sentinels_witness :
    computeChainMetrics (1 / 200) 0 [(7 : ℚ)] =
      { obs := 1, cum_return_pct := none, max_drawdown_pct := none,
        var_pct := none, es_pct := none, ann_vol_pct_sq := none,
        sharpe_sq := none } ∧
    (computeChainMetrics (1 / 200) 0 [(5 : ℚ), 5]).sharpe_sq = none := by
  refine ⟨claim_C7_missing_sentinels.1 (1 / 200) 0 [7] (by norm_num), ?_⟩
  refine claim_C7_missing_sentinels.2.1 (1 / 200) 0 [5, 5] ?_
  norm_num [returns, sampleVar, mean]

/-! ### The page-1 metric pipeline (for C1)

pages/1 first builds `df_daily` and a daily `df_win` from it (lines
101-102, comment "Filter to selected window (daily)"), but then
overwrites `df_win` from the raw `df_all` (lines 111-112), so
`compute_chain_metrics` runs on every intra-day observation in the
window, not on one value per calendar date. -/

/-- pages/1 line 60: `sort_values(["chain", "datetime"])` (stable model;
the sort keys collide only on exact duplicates). -/
def insertByChainTs (o : Obs) : List Obs → List Obs
  | [] => [o]
  | x :: xs =>
    if o.chain < x.chain ∨ (o.chain = x.chain ∧ o.ts ≤ x.ts) then o :: x :: xs
    else x :: insertByChainTs o xs

def sortByChainTs (rows : List Obs) : List Obs := rows.foldr insertByChainTs []

/-- The `df_chain.sort_values("date")` inside `compute_chain_metrics`
(modelled stable; pandas's default quicksort leaves within-date order
unspecified, and the facts proved below do not depend on it). -/
def insertByDay (o : Obs) : List Obs → List Obs
  | [] => [o]
  | x :: xs => if obsDay o ≤ obsDay x then o :: x :: xs else x :: insertByDay o xs

def sortByDay (rows : List Obs) : List Obs := rows.foldr insertByDay []

/-- The value series pages/1 actually feeds `compute_chain_metrics` for
chain `c` and window `[startD, endD]`: filter the raw `df_all` rows by
window (lines 111-112), group by chain, sort by date (line 226).  Every
intra-day observation inside the window survives. -/
def chainSeries (rows : List Obs) (c startD endD : Nat) : List ℚ :=
  (sortByDay (((sortByChainTs rows).filter fun o =>
      startD ≤ obsDay o ∧ obsDay o ≤ endD).filter fun o =>
      o.chain = c)).map fun o => o.value

/-- The per-chain daily value series inside the window, derived from
`df_daily` — what the spec (and the dead `df_win` assignment at lines
101-102) prescribes for the metrics. -/
def dailySeries (rows : List Obs) (c startD endD : Nat) : List ℚ :=
  (((dailyReduce rows).filter fun r => startD ≤ r.date ∧ r.date ≤ endD).filter
      fun r => r.chain = c).map fun r => r.value

/-- Claim C1 (code evidence). For a chain with two observations on day 0
(values 100 then 110) and one on day 1 (value 120), all inside the
window, the series the code feeds `compute_chain_metrics` is
`[100, 110, 120]` — three observations, including both intra-day values
— whereas the claimed daily series is `[110, 120]`.  The reported
metrics differ: 3 observations and 20% cumulative return versus the
claimed 2 observations and 100/11 ≈ 9.09% cumulative return.  (The
metrics do run over raw, never rebased, values — that part of the claim
holds — but not over one value per calendar date.) -/
theorem claim_C1_intraday_divergence :
    chainSeries [⟨0, 0, 100⟩, ⟨0, 1000, 110⟩, ⟨0, 86400500, 120⟩] 0 0 1
      = [100, 110, 120] ∧
    dailySeries [⟨0, 0, 100⟩, ⟨0, 1000, 110⟩, ⟨0, 86400500, 120⟩] 0 0 1
      = [110, 120] ∧
    (computeChainMetrics (1 / 200) 0 [(100 : ℚ), 110, 120]).obs = 3 ∧
    (computeChainMetrics (1 / 200) 0 [(100 : ℚ), 110, 120]).cum_return_pct
      = some 20 ∧
    (computeChainMetrics (1 / 200) 0 [(110 : ℚ), 120]).obs = 2 ∧
    (computeChainMetrics (1 / 200) 0 [(110 : ℚ), 120]).cum_return_pct
      = some (100 / 11) := by
  refine ⟨by decide, by decide, ?_, ?_, ?_, ?_⟩
  · norm_num [computeChainMetrics]
  · norm_num [computeChainMetrics, cumReturn, List.headI]
  · norm_num [computeChainMetrics]
  · norm_num [computeChainMetrics, cumReturn, List.headI]

/-! ### Period-window resolution (pages/1 lines 82-96, pages/2 112-122)

Python `date` objects are modelled as proleptic-Gregorian civil day
numbers (`Nat`); `timedelta(days=k)` subtraction is day-number
subtraction, and `date(today.year, 1, 1)` goes through the standard
civil-calendar conversion. -/

/-- Civil day number of (year, month, day), counted from 0000-03-01,
for year ≥ 1 and 1 ≤ month ≤ 12 (Gregorian, standard algorithm). -/
def daysFromCivil (y m d : Nat) : Nat :=
  let y' := if m ≤ 2 then y - 1 else y
  let era := y' / 400
  let yoe := y' % 400
  let mp := if 2 < m then m - 3 else m + 9
  let doy := (153 * mp + 2) / 5 + (d - 1)
  let doe := yoe * 365 + yoe / 4 - yoe / 100 + doy
  era * 146097 + doe

/-- The (year, month, day) triple of a civil day number (inverse of
`daysFromCivil`, standard algorithm). -/
def civilFromDays (z : Nat) : Nat × Nat × Nat :=
  let era := z / 146097
  let doe := z % 146097
  let yoe := (doe - doe / 1460 + doe / 36524 - doe / 146096) / 365
  let y := yoe + era * 400
  let doy := doe - (365 * yoe + yoe / 4 - yoe / 100)
  let mp := (5 * doy + 2) / 153
  let d := doy - (153 * mp + 2) / 5 + 1
  let m := if mp < 10 then mp + 3 else mp - 9
  (if m ≤ 2 then y + 1 else y, m, d)

/-- The `today.year` of a civil day number. -/
def yearOf (z : Nat) : Nat := (civilFromDays z).1

/-- The `date(today.year, 1, 1)` — January 1 of the year of `z`. -/
def jan1 (z : Nat) : Nat := daysFromCivil (yearOf z) 1 1

/-- The period presets offered by the two pages (pages/1: Last 7/30
days, YTD, All, Custom; pages/2: Last 30/90 days, YTD, All, Custom). -/
inductive Preset
  | last7 | last30 | last90 | ytd | all | custom
  deriving Repr, DecidableEq

/-- The `preset_to_range` (pages/1 lines 82-92, pages/2 lines 112-122):
resolve a preset to a raw (start, end) pair of dates, with
`today = global_max`. -/
def preset_to_range (gmin gmax cs ce : Nat) : Preset → Nat × Nat
  | .last7 => (gmax - 7, gmax)
  | .last30 => (gmax - 30, gmax)
  | .last90 => (gmax - 90, gmax)
  | .ytd => (jan1 gmax, gmax)
  | .all => (gmin, gmax)
  | .custom => (cs, ce)

/-- Lines 94-96 (pages/1) / 144-146 (pages/2): resolve, then clamp
`start = max(start, global_min)` and `end = min(end, global_max)`. -/
def resolvedWindow (gmin gmax cs ce : Nat) (p : Preset) : Nat × Nat :=
  let r := preset_to_range gmin gmax cs ce p
  (max r.1 gmin, min r.2 gmax)

/-- Claim C8. A named preset resolves to a concrete [start, end] range and
both endpoints are then clamped into [global_min, global_max] (for every
non-custom preset both clamped endpoints do land in that interval);
"Last 7 days" with global_min = 2024-01-01 and global_max = 2024-01-10
resolves to [2024-01-03, 2024-01-10]; "YTD" resolves to January 1 of the
year of global_max through global_max — concretely, global_max =
2024-03-15 gives [2024-01-01, 2024-03-15]. -/
theorem claim_C8_window_resolution :
    (∀ gmin gmax cs ce : Nat, gmin ≤ gmax → jan1 gmax ≤ gmax →
      ∀ p, p ≠ Preset.custom →
        gmin ≤ (resolvedWindow gmin gmax cs ce p).1 ∧
        (resolvedWindow gmin gmax cs ce p).1 ≤ gmax ∧
        gmin ≤ (resolvedWindow gmin gmax cs ce p).2 ∧
        (resolvedWindow gmin gmax cs ce p).2 ≤ gmax) ∧
    resolvedWindow (daysFromCivil 2024 1 1) (daysFromCivil 2024 1 10) 0 0
      Preset.last7 = (daysFromCivil 2024 1 3, daysFromCivil 2024 1 10) ∧
    (∀ gmin gmax cs ce : Nat,
      preset_to_range gmin gmax cs ce Preset.ytd = (jan1 gmax, gmax)) ∧
    resolvedWindow (daysFromCivil 2023 12 1) (daysFromCivil 2024 3 15) 0 0
      Preset.ytd = (daysFromCivil 2024 1 1, daysFromCivil 2024 3 15) := by
  refine ⟨?_, by decide, fun _ _ _ _ => rfl, by decide⟩
  intro gmin gmax cs ce hle hjan p hp
  cases p
  · simp only [resolvedWindow, preset_to_range]
    omega
  · simp only [resolvedWindow, preset_to_range]
    omega
  · simp only [resolvedWindow, preset_to_range]
    omega
  · simp only [resolvedWindow, preset_to_range]
    omega
  · simp only [resolvedWindow, preset_to_range]
    omega
  · exact absurd rfl hp

/-- Witness for C8 at global_min = 2024-01-01, global_max = 2024-01-10,
preset "Last 30 days" (clamped to global_min). -/
theorem claim_C8_window_resolution_witness :
    daysFromCivil 2024 1 1 ≤ daysFromCivil 2024 1 10 ∧
    jan1 (daysFromCivil 2024 1 10) ≤ daysFromCivil 2024 1 10 ∧
    (daysFromCivil 2024 1 1 ≤
      (resolvedWindow (daysFromCivil 2024 1 1) (daysFromCivil 2024 1 10) 0 0
        Preset.last30).1 ∧
     (resolvedWindow (daysFromCivil 2024 1 1) (daysFromCivil 2024 1 10) 0 0
        Preset.last30).1 ≤ daysFromCivil 2024 1 10 ∧
     daysFromCivil 2024 1 1 ≤
      (resolvedWindow (daysFromCivil 2024 1 1) (daysFromCivil 2024 1 10) 0 0
        Preset.last30).2 ∧
     (resolvedWindow (daysFromCivil 2024 1 1) (daysFromCivil 2024 1 10) 0 0
        Preset.last30).2 ≤ daysFromCivil 2024 1 10) :=
  ⟨by decide, by decide,
    claim_C8_window_resolution.1 (daysFromCivil 2024 1 1)
      (daysFromCivil 2024 1 10) 0 0 (by decide) (by decide)
      Preset.last30 (by decide)⟩

/-! ### Nearest-price matching (pages/2 lines 160-192) -/

/-- One (timestamp, price) point of an asset's price series; timestamps
in ms, as `ℤ` so time differences are signed. -/
structure PricePoint where
  ts : ℤ
  price : ℚ
  deriving Repr, DecidableEq

/-- The point of the series closest to `probe` (first such point;
`merge_asof` with `direction="nearest"` takes the backward candidate on
an exact tie, which on an ascending series is the earlier one). -/
def bestMatch (probe : ℤ) : List PricePoint → Option PricePoint
  | [] => none
  | p :: rest =>
    match bestMatch probe rest with
    | none => some p
    | some b => if |b.ts - probe| < |p.ts - probe| then some b else some p

/-- pages/2 `nearest_price` for one asset's series: `merge_asof`
nearest-match with *inclusive* tolerance; `none` when the series is
empty (or the asset is unknown) or the nearest point is farther than
`tol`. -/
def nearest_price (prices : List PricePoint) (probe tol : ℤ) : Option ℚ :=
  match bestMatch probe prices with
  | none => none
  | some b => if |b.ts - probe| ≤ tol then some b.price else none

theorem bestMatch_eq_none (probe : ℤ) (l : List PricePoint) :
    bestMatch probe l = none ↔ l = [] := by
  cases l with
  | nil => simp [bestMatch]
  | cons p rest =>
    simp only [bestMatch]
    cases bestMatch probe rest with
    | none => simp
    | some b => by_cases h : |b.ts - probe| < |p.ts - probe| <;> simp [h]

theorem bestMatch_spec (probe : ℤ) (l : List PricePoint) :
    ∀ b, bestMatch probe l = some b →
      b ∈ l ∧ ∀ q ∈ l, |b.ts - probe| ≤ |q.ts - probe| := by
  induction l with
  | nil => intro b h; simp [bestMatch] at h
  | cons p rest ih =>
    intro b h
    simp only [bestMatch] at h
    cases hrec : bestMatch probe rest with
    | none =>
      rw [hrec] at h
      cases h
      have : rest = [] := (bestMatch_eq_none probe rest).mp hrec
      subst this
      exact ⟨by simp, by simp⟩
    | some c =>
      rw [hrec] at h
      dsimp only at h
      rcases ih c hrec with ⟨hc_mem, hc_min⟩
      by_cases hcmp : |c.ts - probe| < |p.ts - probe|
      · rw [if_pos hcmp] at h
        cases h
        refine ⟨List.mem_cons_of_mem _ hc_mem, ?_⟩
        intro q hq
        rcases List.mem_cons.mp hq with rfl | hmem
        · omega
        · exact hc_min q hmem
      · rw [if_neg hcmp] at h
        cases h
        refine ⟨List.mem_cons_self _ _, ?_⟩
        intro q hq
        rcases List.mem_cons.mp hq with rfl | hmem
        · exact le_refl _
        · have := hc_min q hmem
          omega

/-- One exploded composition row: asset id, snapshot timestamp (ms),
token balance (pages/2 `df_win` rows entering the pricing loop). -/
structure CompRow where
  asset : Nat
  ts : ℤ
  balance : ℚ
  deriving Repr, DecidableEq

/-- The price matched to a row: `nearest_price(addr, datetime)` with the
price book `book` (an unknown asset has the empty series, as in the
code's `price_map.get` returning nothing). -/
def rowPrice (book : Nat → List PricePoint) (tol : ℤ) (r : CompRow) : Option ℚ :=
  nearest_price (book r.asset) r.ts tol

/-- pages/2 line 186: `miss_ct`, the number of rows whose price match
failed. -/
def missCt (book : Nat → List PricePoint) (tol : ℤ) (rows : List CompRow) : Nat :=
  (rows.filter fun r => (rowPrice book tol r).isNone).length

/-- pages/2 line 189: `dfv = df_win.dropna(subset=["usd_value"])` — the
rows that keep a matched price, paired with it. -/
def dfv (book : Nat → List PricePoint) (tol : ℤ) (rows : List CompRow) :
    List (CompRow × ℚ) :=
  rows.filterMap fun r => (rowPrice book tol r).map fun p => (r, p)

theorem dfv_length (book : Nat → List PricePoint) (tol : ℤ) :
    ∀ rows, (dfv book tol rows).length + missCt book tol rows = rows.length
  | [] => rfl
  | r :: rest => by
    have ih := dfv_length book tol rest
    cases hp : rowPrice book tol r with
    | none =>
      have h1 : dfv book tol (r :: rest) = dfv book tol rest := by
        simp [dfv, List.filterMap_cons, hp]
      have h2 : missCt book tol (r :: rest) = missCt book tol rest + 1 := by
        simp [missCt, List.filter_cons, hp]
      rw [h1, h2, List.length_cons]
      omega
    | some p =>
      have h1 : dfv book tol (r :: rest) = (r, p) :: dfv book tol rest := by
        simp [dfv, List.filterMap_cons, hp]
      have h2 : missCt book tol (r :: rest) = missCt book tol rest := by
        simp [missCt, List.filter_cons, hp]
      rw [h1, h2, List.length_cons, List.length_cons]
      omega

theorem mem_dfv (book : Nat → List PricePoint) (tol : ℤ) (rows : List CompRow)
    (r : CompRow) (p : ℚ) :
    (r, p) ∈ dfv book tol rows ↔ r ∈ rows ∧ rowPrice book tol r = some p := by
  simp only [dfv, List.mem_filterMap]
  constructor
  · rintro ⟨a, ha, hfa⟩
    cases hpa : rowPrice book tol a with
    | none => rw [hpa] at hfa; simp at hfa
    | some q =>
      rw [hpa] at hfa
      simp only [Option.map_some'] at hfa
      injection hfa with h1
      have hra : a = r := congrArg Prod.fst h1
      have hqp : q = p := congrArg Prod.snd h1
      subst hra
      subst hqp
      exact ⟨ha, hpa⟩
  · rintro ⟨hr, hp⟩
    exact ⟨r, hr, by rw [hp]; rfl⟩

/-- Claim C4. Nearest-price matching: the accepted price is always the one
closest in time to the probe; a match is accepted iff the nearest
available point is within the tolerance (inclusive: at exactly 24h with
a 24h tolerance it matches, at 25h it fails); the rows whose match
failed are exactly the ones excluded from the USD valuation (`dfv`), and
their count is `miss_ct` (matched + missed = all rows). -/
theorem claim_C4_nearest_price :
    (∀ (prices : List PricePoint) (probe tol : ℤ),
      ((nearest_price prices probe tol).isSome ↔
        ∃ q ∈ prices, |q.ts - probe| ≤ tol) ∧
      ∀ p, nearest_price prices probe tol = some p →
        ∃ b ∈ prices, p = b.price ∧ |b.ts - probe| ≤ tol ∧
          ∀ q ∈ prices, |b.ts - probe| ≤ |q.ts - probe|) ∧
    nearest_price [⟨0, 42⟩] 86400000 86400000 = some 42 ∧
    nearest_price [⟨0, 42⟩] 90000000 86400000 = none ∧
    ∀ (book : Nat → List PricePoint) (tol : ℤ) (rows : List CompRow),
      (dfv book tol rows).length + missCt book tol rows = rows.length ∧
      ∀ (r : CompRow) (p : ℚ), (r, p) ∈ dfv book tol rows ↔
        r ∈ rows ∧ rowPrice book tol r = some p := by
  refine ⟨?_, by decide, by decide,
    fun book tol rows => ⟨dfv_length book tol rows, mem_dfv book tol rows⟩⟩
  intro prices probe tol
  cases hbm : bestMatch probe prices with
  | none =>
    have : prices = [] := (bestMatch_eq_none probe prices).mp hbm
    subst this
    simp [nearest_price, bestMatch]
  | some b =>
    rcases bestMatch_spec probe prices b hbm with ⟨hb_mem, hb_min⟩
    constructor
    · simp only [nearest_price, hbm]
      by_cases htol : |b.ts - probe| ≤ tol
      · rw [if_pos htol]
        exact iff_of_true rfl ⟨b, hb_mem, htol⟩
      · rw [if_neg htol]
        refine iff_of_false (by simp) ?_
        rintro ⟨q, hq, hqt⟩
        exact htol (le_trans (hb_min q hq) hqt)
    · intro p hp
      simp only [nearest_price, hbm] at hp
      by_cases htol : |b.ts - probe| ≤ tol
      · rw [if_pos htol] at hp
        injection hp with hp
        exact ⟨b, hb_mem, hp.symm, htol, hb_min⟩
      · rw [if_neg htol] at hp
        cases hp

/-- Witness for C4: probe exactly 24h from the single price point,
tolerance 24h — the match succeeds and is the closest point. -/
theorem claim_C4_nearest_price_witness :
    ∃ b ∈ [({ ts := 0, price := 42 } : PricePoint)],
      (42 : ℚ) = b.price ∧ |b.ts - 86400000| ≤ 86400000 ∧
      ∀ q ∈ [({ ts := 0, price := 42 } : PricePoint)],
        |b.ts - 86400000| ≤ |q.ts - 86400000| :=
  (claim_C4_nearest_price.1 [⟨0, 42⟩] 86400000 86400000).2 42 (by decide)

/-! ### USD allocation (pages/2 lines 194-197) -/

/-- One matched-and-valued composition row of `dfv`: date, token symbol,
`usd_value = balance * price_usd`. -/
structure UsdRow where
  date : Nat
  symbol : String
  usd : ℚ
  deriving Repr, DecidableEq

/-- The `alloc`'s aggregated `usd_value` for one (date, symbol) cell:
`dfv.groupby(["date","symbol"])["usd_value"].sum()`. -/
def usdOf (rows : List UsdRow) (d : Nat) (s : String) : ℚ :=
  (((rows.filter fun r => r.date = d).filter fun r => r.symbol = s).map
    fun r => r.usd).sum

/-- The `day_tot`: the sum of `usd_value` over all of a date's rows. -/
def dayTotal (rows : List UsdRow) (d : Nat) : ℚ :=
  ((rows.filter fun r => r.date = d).map fun r => r.usd).sum

/-- The `alloc["pct"] = usd_value / day_total * 100`. -/
def pctOf (rows : List UsdRow) (d : Nat) (s : String) : ℚ :=
  usdOf rows d s / dayTotal rows d * 100

/-- The distinct symbols present on a date. -/
def symsOn (rows : List UsdRow) (d : Nat) : List String :=
  ((rows.filter fun r => r.date = d).map fun r => r.symbol).dedup

/-- Splitting a mapped sum along a Boolean predicate. -/
theorem sum_split {α : Type} (f : α → ℚ) (p : α → Bool) :
    ∀ l : List α,
      ((l.filter p).map f).sum + ((l.filter fun a => !(p a)).map f).sum
        = (l.map f).sum
  | [] => by simp
  | a :: l => by
    have ih := sum_split f p l
    cases hp : p a
    · have h1 : List.filter p (a :: l) = List.filter p l := by
        simp [List.filter_cons, hp]
      have h2 : List.filter (fun x => !(p x)) (a :: l)
          = a :: List.filter (fun x => !(p x)) l := by
        simp [List.filter_cons, hp]
      rw [h1, h2]
      simp only [List.map_cons, List.sum_cons]
      rw [← ih]
      ring
    · have h1 : List.filter p (a :: l) = a :: List.filter p l := by
        simp [List.filter_cons, hp]
      have h2 : List.filter (fun x => !(p x)) (a :: l)
          = List.filter (fun x => !(p x)) l := by
        simp [List.filter_cons, hp]
      rw [h1, h2]
      simp only [List.map_cons, List.sum_cons]
      rw [← ih]
      ring

/-- Summing fiberwise over a duplicate-free list of keys that covers the
rows gives the total sum. -/
theorem fiberSum {α : Type} (f : α → ℚ) (key : α → String) :
    ∀ (syms : List String) (l : List α), syms.Nodup →
      (∀ a ∈ l, key a ∈ syms) →
      (syms.map fun s => ((l.filter fun a => key a = s).map f).sum).sum
        = (l.map f).sum
  | [], l, _, hmem => by
    cases l with
    | nil => simp
    | cons a t => exact absurd (hmem a (by simp)) (by simp)
  | s :: rest, l, hnd, hmem => by
    rcases List.nodup_cons.mp hnd with ⟨hs_rest, hnd'⟩
    have hsub : ∀ a ∈ l.filter fun a => !(decide (key a = s)), key a ∈ rest := by
      intro a ha
      rcases List.mem_filter.mp ha with ⟨hal, hns⟩
      have hne : ¬ key a = s := by simpa using hns
      rcases List.mem_cons.mp (hmem a hal) with h | h
      · exact absurd h hne
      · exact h
    have ih := fiberSum f key rest (l.filter fun a => !(decide (key a = s)))
      hnd' hsub
    have hfib : ∀ s' ∈ rest,
        (l.filter fun a => key a = s')
          = ((l.filter fun a => !(decide (key a = s))).filter
              fun a => key a = s') := by
      intro s' hs'
      have hne : s' ≠ s := fun h => hs_rest (h ▸ hs')
      rw [List.filter_filter]
      apply List.filter_congr
      intro a _
      by_cases h : key a = s'
      · simp [h, hne]
      · simp [h]
    simp only [List.map_cons, List.sum_cons]
    have hmap : (rest.map fun s' => ((l.filter fun a => key a = s').map f).sum)
        = rest.map fun s' =>
            (((l.filter fun a => !(decide (key a = s))).filter
              fun a => key a = s').map f).sum := by
      apply List.map_congr_left
      intro s' hs'
      rw [hfib s' hs']
    rw [hmap, ih]
    exact sum_split f (fun a => decide (key a = s)) l

/-- Claim C9. For every date whose rows have a positive total usd_value,
the `pct` values of that date's allocation cells sum to exactly 100
(each cell is its usd sum divided by the same day total, times 100). -/
theorem claim_C9_allocation (rows : List UsdRow) (d : Nat)
    (h : 0 < dayTotal rows d) :
    ((symsOn rows d).map fun s => pctOf rows d s).sum = 100 := by
  have hT : dayTotal rows d ≠ 0 := ne_of_gt h
  have hfib := fiberSum (fun r : UsdRow => r.usd) (fun r => r.symbol)
      (symsOn rows d) (rows.filter fun r => r.date = d)
      (List.nodup_dedup _)
      (fun r hr => List.mem_dedup.mpr (List.mem_map_of_mem _ hr))
  have hpct : ∀ s ∈ symsOn rows d,
      pctOf rows d s = usdOf rows d s * (100 / dayTotal rows d) := by
    intro s _
    rw [pctOf]
    ring
  rw [List.map_congr_left hpct, List.sum_map_mul_right]
  have husd : (symsOn rows d).map (fun s => usdOf rows d s)
      = (symsOn rows d).map fun s =>
          (((rows.filter fun r => r.date = d).filter
            fun r => r.symbol = s).map fun r => r.usd).sum := rfl
  rw [husd, hfib]
  rw [show ((rows.filter fun r => r.date = d).map fun r => r.usd).sum
      = dayTotal rows d from rfl]
  field_simp

/-- Witness for C9: date 0 with rows A = 60, B = 25, C = 15 (positive
day total 100) — the pcts sum to 100. -/
theorem claim_C9_allocation_witness :
    ((symsOn [⟨0, "A", 60⟩, ⟨0, "B", 25⟩, ⟨0, "C", 15⟩] 0).map
      fun s => pctOf [⟨0, "A", 60⟩, ⟨0, "B", 25⟩, ⟨0, "C", 15⟩] 0 s).sum
      = 100 :=
  claim_C9_allocation [⟨0, "A", 60⟩, ⟨0, "B", 25⟩, ⟨0, "C", 15⟩] 0
    (by norm_num [dayTotal])

/-! ### Top-N grouping (pages/2 `group_top_n`, lines 202-223) -/

/-- One row of the tidy `alloc` table. -/
structure AllocRow where
  date : Nat
  symbol : String
  usd_value : ℚ
  day_total : ℚ
  pct : ℚ
  deriving Repr, DecidableEq

/-- Stable insertion for a descending-by-`usd_value` sort
(`g.sort_values("usd_value", ascending=False)`; pandas leaves tie order
unspecified, the claims do not depend on it). -/
def insertDescUsd (a : AllocRow) : List AllocRow → List AllocRow
  | [] => [a]
  | b :: bs =>
    if b.usd_value ≤ a.usd_value then a :: b :: bs else b :: insertDescUsd a bs

def sortDescUsd (l : List AllocRow) : List AllocRow := l.foldr insertDescUsd []

/-- The synthetic "Other" row (pages/2 lines 209-215): tail usd sum, the
group's `day_total` (of the first sorted row), pct recomputed against
that same day total. -/
def otherRow (d : Nat) (g : List AllocRow) (N : Nat) : AllocRow :=
  let sorted := sortDescUsd g
  let tsum := ((sorted.drop N).map fun r => r.usd_value).sum
  let dtot := match sorted with
    | [] => 0
    | r :: _ => r.day_total
  { date := d, symbol := "Other", usd_value := tsum, day_total := dtot,
    pct := tsum / dtot * 100 }

/-- pages/2 `group_top_n` body for one date's group `g` (key `d`):
`head = g.head(N)`, `tail = g.iloc[N:]`, append "Other" iff the tail is
non-empty. -/
def group_top_n_day (d : Nat) (g : List AllocRow) (N : Nat) : List AllocRow :=
  let sorted := sortDescUsd g
  if (sorted.drop N).isEmpty then sorted.take N
  else sorted.take N ++ [otherRow d g N]

/-- The ascending, duplicate-free list of dates of an alloc table
(the order `groupby("date")` iterates in). -/
def insertNat (n : Nat) : List Nat → List Nat
  | [] => [n]
  | x :: xs =>
    if n < x then n :: x :: xs
    else if n = x then x :: xs
    else x :: insertNat n xs

def datesOf (alloc : List AllocRow) : List Nat :=
  alloc.foldl (fun acc r => insertNat r.date acc) []

/-- Lexicographic (date, symbol) order used by the final
`sort_values(["date","symbol"])`.  Strings compare lexicographically by
code point, which is `List Char` order on `String.data` (the same order
as `String.lt`). -/
def rowLe (a b : AllocRow) : Bool :=
  a.date < b.date ||
    (a.date = b.date && (a.symbol.data < b.symbol.data || a.symbol = b.symbol))

def insertByDateSymbol (a : AllocRow) : List AllocRow → List AllocRow
  | [] => [a]
  | b :: bs =>
    if rowLe a b then a :: b :: bs else b :: insertByDateSymbol a bs

def sortByDateSymbol (l : List AllocRow) : List AllocRow :=
  l.foldr insertByDateSymbol []

/-- pages/2 `group_top_n`: per date independently, then the final
`sort_values(["date","symbol"])`. -/
def group_top_n (alloc : List AllocRow) (N : Nat) : List AllocRow :=
  sortByDateSymbol
    (((datesOf alloc).map fun d =>
      group_top_n_day d (alloc.filter fun r => r.date = d) N).flatten)

theorem insertDescUsd_perm (a : AllocRow) :
    ∀ l, (insertDescUsd a l).Perm (a :: l)
  | [] => List.Perm.refl _
  | b :: bs => by
    simp only [insertDescUsd]
    split
    · exact List.Perm.refl _
    · exact ((insertDescUsd_perm a bs).cons b).trans (List.Perm.swap a b bs)

theorem sortDescUsd_perm : ∀ l, (sortDescUsd l).Perm l
  | [] => List.Perm.refl _
  | a :: l => by
    have ih := sortDescUsd_perm l
    simp only [sortDescUsd, List.foldr_cons]
    exact (insertDescUsd_perm a _).trans (ih.cons a)

theorem insertDescUsd_sorted (a : AllocRow) (l : List AllocRow)
    (hl : l.Pairwise fun x y => y.usd_value ≤ x.usd_value) :
    (insertDescUsd a l).Pairwise fun x y => y.usd_value ≤ x.usd_value := by
  induction l with
  | nil => simp [insertDescUsd]
  | cons b bs ih =>
    rcases List.pairwise_cons.mp hl with ⟨hb, hbs⟩
    simp only [insertDescUsd]
    split
    · rename_i h
      refine List.pairwise_cons.mpr ⟨?_, hl⟩
      intro x hx
      rcases List.mem_cons.mp hx with rfl | hmem
      · exact h
      · exact le_trans (hb x hmem) h
    · rename_i h
      push_neg at h
      refine List.pairwise_cons.mpr ⟨?_, ih hbs⟩
      intro x hx
      have hx' := (insertDescUsd_perm a bs).mem_iff.mp hx
      rcases List.mem_cons.mp hx' with rfl | h2
      · exact le_of_lt h
      · exact hb x h2

theorem sortDescUsd_sorted :
    ∀ l, (sortDescUsd l).Pairwise fun x y => y.usd_value ≤ x.usd_value
  | [] => by simp [sortDescUsd]
  | a :: l => by
    have ih := sortDescUsd_sorted l
    simp only [sortDescUsd, List.foldr_cons]
    exact insertDescUsd_sorted a _ ih

/-- Claim C5. Top-N grouping, per date independently: the group is ranked
by `usd_value` descending (a permutation of the input, sorted
descending), the top N rows are kept unchanged (they are rows of the
input), and if and only if the remainder is non-empty a single "Other"
row is appended whose `usd_value` is the tail sum — so head usd + Other
usd = the whole group's usd — and whose pct is that sum over the group's
`day_total` times 100; for N = 2 and a date with A=60, B=25, C=15 (day
total 100) the output is exactly the 3 rows A=60%, B=25%, Other=15%. -/
theorem claim_C5_top_n :
    (∀ (g : List AllocRow) (N d : Nat),
      (sortDescUsd g).Perm g ∧
      ((sortDescUsd g).Pairwise fun x y => y.usd_value ≤ x.usd_value) ∧
      (∀ r ∈ (sortDescUsd g).take N, r ∈ g) ∧
      ((sortDescUsd g).drop N = [] ↔ g.length ≤ N) ∧
      group_top_n_day d g N
        = (sortDescUsd g).take N ++
          (if (sortDescUsd g).drop N = [] then [] else [otherRow d g N]) ∧
      (otherRow d g N).symbol = "Other" ∧
      (otherRow d g N).usd_value
        = (((sortDescUsd g).drop N).map fun r => r.usd_value).sum ∧
      (((sortDescUsd g).take N).map fun r => r.usd_value).sum
          + (otherRow d g N).usd_value
        = (g.map fun r => r.usd_value).sum) ∧
    group_top_n
      [⟨1, "C", 15, 100, 15⟩, ⟨1, "A", 60, 100, 60⟩, ⟨1, "B", 25, 100, 25⟩] 2
      = [⟨1, "A", 60, 100, 60⟩, ⟨1, "B", 25, 100, 25⟩,
         ⟨1, "Other", 15, 100, 15⟩] := by
  constructor
  · intro g N d
    have hperm := sortDescUsd_perm g
    refine ⟨hperm, sortDescUsd_sorted g, ?_, ?_, ?_, rfl, rfl, ?_⟩
    · intro r hr
      exact hperm.subset (List.take_subset N _ hr)
    · rw [List.drop_eq_nil_iff, hperm.length_eq]
    · rw [group_top_n_day]
      by_cases hemp : ((sortDescUsd g).drop N).isEmpty
      · rw [if_pos hemp, if_pos (List.isEmpty_iff.mp hemp), List.append_nil]
      · rw [if_neg hemp,
          if_neg (fun h => hemp (List.isEmpty_iff.mpr h))]
    · rw [show (otherRow d g N).usd_value
          = (((sortDescUsd g).drop N).map fun r => r.usd_value).sum from rfl]
      rw [← List.sum_append, ← List.map_append, List.take_append_drop]
      exact ((hperm.map fun r => r.usd_value).sum_eq)
  · have hsort : sortDescUsd
        [⟨1, "C", 15, 100, 15⟩, ⟨1, "A", 60, 100, 60⟩, ⟨1, "B", 25, 100, 25⟩]
        = [⟨1, "A", 60, 100, 60⟩, ⟨1, "B", 25, 100, 25⟩,
           ⟨1, "C", 15, 100, 15⟩] := by decide
    have hother : otherRow 1
        [⟨1, "C", 15, 100, 15⟩, ⟨1, "A", 60, 100, 60⟩, ⟨1, "B", 25, 100, 25⟩] 2
        = ⟨1, "Other", 15, 100, 15⟩ := by
      rw [otherRow]
      simp only [hsort]
      norm_num
    have hday : group_top_n_day 1
        [⟨1, "C", 15, 100, 15⟩, ⟨1, "A", 60, 100, 60⟩, ⟨1, "B", 25, 100, 25⟩] 2
        = [⟨1, "A", 60, 100, 60⟩, ⟨1, "B", 25, 100, 25⟩,
           ⟨1, "Other", 15, 100, 15⟩] := by
      rw [group_top_n_day]
      simp only [hsort, hother]
      decide
    rw [group_top_n]
    rw [show datesOf
        [⟨1, "C", 15, 100, 15⟩, ⟨1, "A", 60, 100, 60⟩, ⟨1, "B", 25, 100, 25⟩]
        = [1] from by decide]
    simp only [List.map_cons, List.map_nil]
    rw [show List.filter (fun r => r.date = 1)
        [(⟨1, "C", 15, 100, 15⟩ : AllocRow), ⟨1, "A", 60, 100, 60⟩,
         ⟨1, "B", 25, 100, 25⟩]
        = [⟨1, "C", 15, 100, 15⟩, ⟨1, "A", 60, 100, 60⟩,
           ⟨1, "B", 25, 100, 25⟩] from by decide]
    rw [hday]
    decide

/-- Witness for C5: at the example group, the top-2 row A is a row of
the input group. -/
theorem claim_C5_top_n_witness :
    (⟨1, "A", 60, 100, 60⟩ : AllocRow) ∈
      [(⟨1, "C", 15, 100, 15⟩ : AllocRow), ⟨1, "A", 60, 100, 60⟩,
       ⟨1, "B", 25, 100, 25⟩] :=
  (claim_C5_top_n.1
    [⟨1, "C", 15, 100, 15⟩, ⟨1, "A", 60, 100, 60⟩, ⟨1, "B", 25, 100, 25⟩]
    2 1).2.2.1 ⟨1, "A", 60, 100, 60⟩ (by decide)

/-! ### Turnover (pages/2 `turnover_series`, lines 231-236) -/

/-- The zero-filled pivot lookup `piv.fillna(0.0)`: the pct of a
(date, symbol) cell, 0 when the symbol is absent that date (`alloc` has
one row per (date, symbol), so the matching sum is that row's pct). -/
def pctAt (alloc : List AllocRow) (d : Nat) (s : String) : ℚ :=
  ((alloc.filter fun r => r.date = d ∧ r.symbol = s).map fun r => r.pct).sum

/-- The pivot's columns: every symbol appearing in the table. -/
def allSyms (alloc : List AllocRow) : List String :=
  (alloc.map fun r => r.symbol).dedup

/-- One turnover cell: `(piv.diff().abs().sum(axis=1) * 0.5)` at date
`d` with predecessor `prev`. -/
def turnoverAt (alloc : List AllocRow) (prev d : Nat) : ℚ :=
  ((allSyms alloc).map fun s => |pctAt alloc d s - pctAt alloc prev s|).sum
    * (1 / 2)

def turnoverAux (alloc : List AllocRow) (prev : Nat) :
    List Nat → List (Nat × ℚ)
  | [] => []
  | d :: ds => (d, turnoverAt alloc prev d) :: turnoverAux alloc d ds

/-- pages/2 `turnover_series`: pivot (date × symbol) of pct, zero-fill,
sort by date, `0.5 * Σ |row diff|`.  pandas emits 0.0 for the first date
(the all-NaN diff row sums to 0 under skipna). -/
def turnover_series (alloc : List AllocRow) : List (Nat × ℚ) :=
  match datesOf alloc with
  | [] => []
  | d0 :: rest => (d0, 0) :: turnoverAux alloc d0 rest

/-- A sum over a covering duplicate-free index list equals the sum over
a duplicate-free sublist outside of which the summand vanishes. -/
theorem sum_over_support (f : String → ℚ) (L M : List String)
    (hL : L.Nodup) (hM : M.Nodup) (hsub : ∀ s ∈ M, s ∈ L)
    (hzero : ∀ s ∈ L, s ∉ M → f s = 0) :
    (L.map f).sum = (M.map f).sum := by
  have hsplit := sum_split f (fun s => decide (s ∈ M)) L
  have hz : ((L.filter fun s => !(decide (s ∈ M))).map f).sum = 0 := by
    apply List.sum_eq_zero
    intro x hx
    rcases List.mem_map.mp hx with ⟨s, hs, rfl⟩
    rcases List.mem_filter.mp hs with ⟨hsL, hsM⟩
    exact hzero s hsL (by simpa using hsM)
  have hperm : (L.filter fun s => decide (s ∈ M)).Perm M := by
    rw [List.perm_ext_iff_of_nodup (hL.filter _) hM]
    intro s
    rw [List.mem_filter]
    constructor
    · rintro ⟨_, h⟩
      simpa using h
    · intro h
      exact ⟨hsub s h, by simpa using h⟩
  calc (L.map f).sum
      = ((L.filter fun s => decide (s ∈ M)).map f).sum
        + ((L.filter fun s => !(decide (s ∈ M))).map f).sum := hsplit.symm
    _ = ((L.filter fun s => decide (s ∈ M)).map f).sum := by rw [hz, add_zero]
    _ = (M.map f).sum := (hperm.map f).sum_eq

/-- If no row of `alloc` has date `d` and symbol `s`, the zero-filled
pivot cell is 0. -/
theorem pctAt_eq_zero (alloc : List AllocRow) (d : Nat) (s : String)
    (h : ∀ r ∈ alloc, ¬(r.date = d ∧ r.symbol = s)) :
    pctAt alloc d s = 0 := by
  rw [pctAt, List.filter_eq_nil_iff.mpr (by intro r hr; simpa using h r hr)]
  rfl

/-- Claim C6. For every date after the first, the emitted turnover is
`0.5 * Σ_s |pct(date, s) - pct(prev, s)|` where `s` ranges over the
union of the two dates' symbol sets and an absent symbol weighs 0
(zero-filled outer join); `turnover_series` pairs each date of the
sorted date list with its predecessor; day1 {A:100} and day2
{A:60, B:40} give turnover(day2) = 40. -/
theorem claim_C6_turnover :
    (∀ (alloc : List AllocRow) (prev d : Nat),
      turnoverAt alloc prev d
        = (((alloc.filter fun r => r.date = d ∨ r.date = prev).map
            fun r => r.symbol).dedup.map
            fun s => |pctAt alloc d s - pctAt alloc prev s|).sum * (1 / 2)) ∧
    (∀ (alloc : List AllocRow) (d0 : Nat) (rest : List Nat),
      datesOf alloc = d0 :: rest →
      turnover_series alloc
        = (d0, 0) :: ((d0 :: rest).zip rest).map
            fun pd => (pd.2, turnoverAt alloc pd.1 pd.2)) ∧
    turnover_series
      [⟨1, "A", 100, 100, 100⟩, ⟨2, "A", 60, 100, 60⟩, ⟨2, "B", 40, 100, 40⟩]
      = [(1, 0), (2, 40)] := by
  refine ⟨?_, ?_, ?_⟩
  · intro alloc prev d
    rw [turnoverAt]
    congr 1
    apply sum_over_support
    · exact List.nodup_dedup _
    · exact List.nodup_dedup _
    · intro s hs
      rcases List.mem_map.mp (List.mem_dedup.mp hs) with ⟨r, hr, rfl⟩
      exact List.mem_dedup.mpr
        (List.mem_map_of_mem _ (List.mem_of_mem_filter hr))
    · intro s _ hsM
      have hzd : pctAt alloc d s = 0 := by
        apply pctAt_eq_zero
        rintro r hr ⟨hrd, hrs⟩
        exact hsM (List.mem_dedup.mpr (List.mem_map.mpr
          ⟨r, List.mem_filter.mpr ⟨hr, by simp [hrd]⟩, hrs⟩))
      have hzp : pctAt alloc prev s = 0 := by
        apply pctAt_eq_zero
        rintro r hr ⟨hrd, hrs⟩
        exact hsM (List.mem_dedup.mpr (List.mem_map.mpr
          ⟨r, List.mem_filter.mpr ⟨hr, by simp [hrd]⟩, hrs⟩))
      rw [hzd, hzp]
      simp
  · intro alloc d0 rest hd
    rw [turnover_series, hd]
    have haux : ∀ (ds : List Nat) (prev : Nat),
        turnoverAux alloc prev ds
          = ((prev :: ds).zip ds).map
              fun pd => (pd.2, turnoverAt alloc pd.1 pd.2) := by
      intro ds
      induction ds with
      | nil => intro prev; rfl
      | cons d ds ih =>
        intro prev
        simp only [turnoverAux, List.zip_cons_cons, List.map_cons, ih d]
    dsimp only
    rw [haux]
  · have hdates : datesOf
        [⟨1, "A", 100, 100, 100⟩, ⟨2, "A", 60, 100, 60⟩,
         ⟨2, "B", 40, 100, 40⟩] = [1, 2] := by decide
    rw [turnover_series, hdates]
    dsimp only [turnoverAux]
    have hA2 : pctAt
        [⟨1, "A", 100, 100, 100⟩, ⟨2, "A", 60, 100, 60⟩,
         ⟨2, "B", 40, 100, 40⟩] 2 "A" = 60 := by
      rw [pctAt, show List.filter (fun r => r.date = 2 ∧ r.symbol = "A")
        [(⟨1, "A", 100, 100, 100⟩ : AllocRow), ⟨2, "A", 60, 100, 60⟩,
         ⟨2, "B", 40, 100, 40⟩] = [⟨2, "A", 60, 100, 60⟩] from by decide]
      norm_num
    have hA1 : pctAt
        [⟨1, "A", 100, 100, 100⟩, ⟨2, "A", 60, 100, 60⟩,
         ⟨2, "B", 40, 100, 40⟩] 1 "A" = 100 := by
      rw [pctAt, show List.filter (fun r => r.date = 1 ∧ r.symbol = "A")
        [(⟨1, "A", 100, 100, 100⟩ : AllocRow), ⟨2, "A", 60, 100, 60⟩,
         ⟨2, "B", 40, 100, 40⟩] = [⟨1, "A", 100, 100, 100⟩] from by decide]
      norm_num
    have hB2 : pctAt
        [⟨1, "A", 100, 100, 100⟩, ⟨2, "A", 60, 100, 60⟩,
         ⟨2, "B", 40, 100, 40⟩] 2 "B" = 40 := by
      rw [pctAt, show List.filter (fun r => r.date = 2 ∧ r.symbol = "B")
        [(⟨1, "A", 100, 100, 100⟩ : AllocRow), ⟨2, "A", 60, 100, 60⟩,
         ⟨2, "B", 40, 100, 40⟩] = [⟨2, "B", 40, 100, 40⟩] from by decide]
      norm_num
    have hB1 : pctAt
        [⟨1, "A", 100, 100, 100⟩, ⟨2, "A", 60, 100, 60⟩,
         ⟨2, "B", 40, 100, 40⟩] 1 "B" = 0 := by
      rw [pctAt, show List.filter (fun r => r.date = 1 ∧ r.symbol = "B")
        [(⟨1, "A", 100, 100, 100⟩ : AllocRow), ⟨2, "A", 60, 100, 60⟩,
         ⟨2, "B", 40, 100, 40⟩] = [] from by decide]
      rfl
    have h1 : turnoverAt
        [⟨1, "A", 100, 100, 100⟩, ⟨2, "A", 60, 100, 60⟩,
         ⟨2, "B", 40, 100, 40⟩] 1 2 = 40 := by
      have hsyms : allSyms
          [⟨1, "A", 100, 100, 100⟩, ⟨2, "A", 60, 100, 60⟩,
           ⟨2, "B", 40, 100, 40⟩] = ["A", "B"] := by decide
      rw [turnoverAt, hsyms]
      simp only [List.map_cons, List.map_nil, List.sum_cons, List.sum_nil,
        hA2, hA1, hB2, hB1]
      rw [show |(60 : ℚ) - 100| = 40 from by
        rw [show (60 : ℚ) - 100 = -40 from by norm_num, abs_neg]
        norm_num [abs_of_nonneg]]
      rw [show |(40 : ℚ) - 0| = 40 from by norm_num [abs_of_nonneg]]
      norm_num
    rw [h1]

/-- Witness for C6 (second component at the example table): the emitted
series pairs date 2 with predecessor 1. -/
theorem claim_C6_turnover_witness :
    turnover_series
      [⟨1, "A", 100, 100, 100⟩, ⟨2, "A", 60, 100, 60⟩, ⟨2, "B", 40, 100, 40⟩]
      = [(1, 0),
         (2, turnoverAt
          [⟨1, "A", 100, 100, 100⟩, ⟨2, "A", 60, 100, 60⟩,
           ⟨2, "B", 40, 100, 40⟩] 1 2)] :=
  claim_C6_turnover.2.1
    [⟨1, "A", 100, 100, 100⟩, ⟨2, "A", 60, 100, 60⟩, ⟨2, "B", 40, 100, 40⟩]
    1 [2] (by decide)

/-! ### ERC20 decimals / balance calls (pages/4 Treasury & Accounting,
lines 64-89 and the WEDT loop at lines 129-138)

An `eth_call` outcome as `_eth_call` surfaces it is either an exception
(network error, HTTP error status, or JSON-RPC `error` member — all
raised) or the JSON `result` string; `Except String String` models
exactly that. -/

/-- The value of one hex digit, `none` for a non-hex character. -/
def hexDigit (c : Char) : Option Nat :=
  if '0' ≤ c ∧ c ≤ '9' then some (c.toNat - '0'.toNat)
  else if 'a' ≤ c ∧ c ≤ 'f' then some (c.toNat - 'a'.toNat + 10)
  else if 'A' ≤ c ∧ c ≤ 'F' then some (c.toNat - 'A'.toNat + 10)
  else none

/-- Python `int(s, 16)`: parse an optionally "0x"/"0X"-prefixed hex
numeral, `none` when invalid (Python raises `ValueError`). -/
def parseHex (s : String) : Option Nat :=
  let cs := if s.data.take 2 = ['0', 'x'] ∨ s.data.take 2 = ['0', 'X']
    then s.data.drop 2 else s.data
  if cs.isEmpty then none
  else cs.foldl
    (fun acc c =>
      match acc, hexDigit c with
      | some n, some d => some (16 * n + d)
      | _, _ => none)
    (some 0)

/-- pages/4 `erc20_decimals`: the whole body is inside `try/except`, so
an exception from the call — or from `int(res, 16)` on an unparsable
result — returns the provided default, and an empty or `"0x"` result
returns the default too. -/
def erc20_decimals (call : Except String String) (dflt : Nat) : Nat :=
  match call with
  | .error _ => dflt
  | .ok res =>
    if res = "" ∨ res = "0x" then dflt
    else (parseHex res).getD dflt

/-- pages/4 `erc20_balance_of`: *not* wrapped in `try/except`; a failed
call or unparsable result propagates as an exception to the caller. -/
def erc20_balance_of (call : Except String String) (dec : Nat) :
    Except String ℚ :=
  match call with
  | .error e => .error e
  | .ok res =>
    if res = "" ∨ res = "0x" then .ok (((0 : Nat) : ℚ) / 10 ^ dec)
    else
      match parseHex res with
      | some n => .ok ((n : ℚ) / 10 ^ dec)
      | none => .error "invalid hex"

/-- One iteration of the WEDT loop (pages/4 lines 129-138): fetch
decimals (total, default 18), then the balance (may raise); a success
appends a (decimals, amount) row, a failure appends a warning instead. -/
def wedtStep (decCall balCall : Except String String)
    (rows : List (Nat × ℚ)) (errors : List String) :
    List (Nat × ℚ) × List String :=
  let dec := erc20_decimals decCall 18
  match erc20_balance_of balCall dec with
  | .ok amt => (rows ++ [(dec, amt)], errors)
  | .error e => (rows, errors ++ [e])

/-- Claim C10. `erc20_decimals` is total over RPC outcomes: an exception,
an empty result, a `"0x"` result, or an unparsable result all return the
provided default (18) instead of propagating; consequently a token whose
`decimals()` call fails is valued with 18 decimals and the failure adds
no warning (the error list is unchanged when the balance call itself
succeeds). -/
theorem claim_C10_erc20_decimals_total :
    (∀ (e : String) (dflt : Nat), erc20_decimals (.error e) dflt = dflt) ∧
    (∀ dflt : Nat, erc20_decimals (.ok "") dflt = dflt) ∧
    (∀ dflt : Nat, erc20_decimals (.ok "0x") dflt = dflt) ∧
    (∀ (res : String) (dflt : Nat), parseHex res = none →
      erc20_decimals (.ok res) dflt = dflt) ∧
    (∀ (e : String) (balCall : Except String String)
        (rows : List (Nat × ℚ)) (errors : List String) (amt : ℚ),
      erc20_balance_of balCall 18 = .ok amt →
      wedtStep (.error e) balCall rows errors = (rows ++ [(18, amt)], errors)) := by
  refine ⟨fun _ _ => rfl, fun _ => by simp [erc20_decimals],
    fun _ => by simp [erc20_decimals], ?_, ?_⟩
  · intro res dflt hparse
    rw [erc20_decimals]
    by_cases h : res = "" ∨ res = "0x"
    · rw [if_pos h]
    · rw [if_neg h, hparse]
      rfl
  · intro e balCall rows errors amt hbal
    rw [wedtStep]
    have hdec : erc20_decimals (.error e) 18 = 18 := rfl
    rw [hdec, hbal]

/-- Witness for C10: an unparsable result (`"zz"`) yields the default,
and a failing decimals call with a succeeding balance call (`"0x5"`)
yields a row valued with 18 decimals and no warning. -/
theorem claim_C10_erc20_decimals_total_witness :
    erc20_decimals (.ok "zz") 18 = 18 ∧
    wedtStep (.error "boom") (.ok "0x5") [] []
      = ([(18, ((5 : Nat) : ℚ) / 10 ^ 18)], []) :=
  ⟨claim_C10_erc20_decimals_total.2.2.2.1 "zz" 18 (by decide),
   claim_C10_erc20_decimals_total.2.2.2.2 "boom" (.ok "0x5") [] []
    (((5 : Nat) : ℚ) / 10 ^ 18) rfl⟩

end Analytics
